import Mathlib

/-!
Verification development for the libEnsemble manager core
(libE_manager.py, start_only_persistent.py, calc_info.py).

The definitions below are a shallow embedding of the Python source.
Stateful manager code becomes explicit state passing over a state type
MState; python asserts and raised exceptions become Except values;
numpy structured arrays become lists of records; the real-time clock
becomes an abstract Nat counter advanced by the environment; NaN-able
float columns become Option Int values (none standing for NaN).
Incoming worker traffic is supplied by an environment value (a list of
receive rounds), which stands for the sequence of messages the polling
loops of the source would deliver.
-/

namespace LibE

/-- Modelled from the spec: the module message_numbers is not part of the
given sources; the spec describes the tag vocabulary as a stable closed
enumeration of distinct small integers.  The concrete values chosen here
are arbitrary but pairwise distinct, and the evaluation tags are nonzero
so that the active and persis_state fields can use 0 for the idle state,
as the manager source does. -/
def UNSET_TAG : Nat := 0

/-- Modelled from the spec: evaluation tag for simulator work. -/
def EVAL_SIM_TAG : Nat := 1

/-- Modelled from the spec: evaluation tag for generator work. -/
def EVAL_GEN_TAG : Nat := 2

/-- Modelled from the spec: stop tag. -/
def STOP_TAG : Nat := 3

/-- Modelled from the spec: persistent simulator finished status. -/
def FINISHED_PERSISTENT_SIM_TAG : Nat := 11

/-- Modelled from the spec: persistent generator finished status. -/
def FINISHED_PERSISTENT_GEN_TAG : Nat := 12

/-- Modelled from the spec: worker-initiated abort tag. -/
def ABORT_ENSEMBLE : Nat := 13

/-- Modelled from the spec: manager finish signal. -/
def MAN_SIGNAL_FINISH : Nat := 20

/-- Modelled from the spec: manager kill signal. -/
def MAN_SIGNAL_KILL : Nat := 21

/-- Modelled from the spec: manager resend request signal. -/
def MAN_SIGNAL_REQ_RESEND : Nat := 30

/-- Modelled from the spec: manager pickle dump request signal. -/
def MAN_SIGNAL_REQ_PICKLE_DUMP : Nat := 31

/-- Modelled from the spec: worker kill status. -/
def WORKER_KILL : Nat := 300

/-- Modelled from the spec: worker kill on error status. -/
def WORKER_KILL_ON_ERR : Nat := 301

/-- Modelled from the spec: worker kill on timeout status. -/
def WORKER_KILL_ON_TIMEOUT : Nat := 302

/-- Modelled from the spec: job failed status. -/
def JOB_FAILED : Nat := 303

/-- Modelled from the spec: worker done status. -/
def WORKER_DONE : Nat := 304

/-- Modelled from the spec: calculation exception status. -/
def CALC_EXCEPTION : Nat := 305

/-- One row of the history array.  The scheduling fields follow the
spec data model; user columns are held as an association list from
column name to an optional value, none standing for NaN. -/
structure Row where
  sim_id : Nat := 0
  given : Bool := false
  paused : Bool := false
  returned : Bool := false
  given_time : Int := 0
  sim_worker : Nat := 0
  gen_worker : Nat := 0
  vals : List (String × Option Int) := []
deriving Repr, DecidableEq, Inhabited

/-- Modelled from the spec: the History class is not part of the given
sources.  Per the spec data model, it holds the row buffer, the used
prefix length index, the incrementally maintained counters given_count
and sim_count, the seed offset, and the column (dtype) names. -/
structure Hist where
  rows : List Row := []
  index : Nat := 0
  given_count : Nat := 0
  sim_count : Nat := 0
  offset : Nat := 0
  names : List String := []
deriving Repr, DecidableEq, Inhabited

/-- The used prefix of the history buffer (hist.trim_H in the source). -/
def trimH (h : Hist) : List Row := h.rows.take h.index

/-- Value of the user column named k in a row; none stands for NaN. -/
def rowVal (r : Row) (k : String) : Option Int :=
  match r.vals.find? (fun x => x.1 == k) with
  | some x => x.2
  | none => none

/-- Column k over the used prefix of the history, as in H[key][:idx]. -/
def getColPrefix (h : Hist) (k : String) : List (Option Int) :=
  (h.rows.take h.index).map (fun r => rowVal r k)

/-- Filter out NaNs from an array (filter_nans in the source). -/
def filter_nans (xs : List (Option Int)) : List Int := xs.filterMap id

/-- One worker record of the manager's worker array W. -/
structure WRec where
  worker_id : Nat := 0
  active : Nat := 0
  persis_state : Nat := 0
  blocked : Bool := false
deriving Repr, DecidableEq, Inhabited

/-- Per-worker opaque persistent information, an association list from
worker id to an opaque blob (modelled as an Int). -/
abbrev PInfo := List (Nat × Int)

/-- Look up the opaque blob of worker w (persis_info[w] in the source). -/
def pLookup (p : PInfo) (w : Nat) : Int :=
  match p.find? (fun x => x.1 == w) with
  | some x => x.2
  | none => 0

/-- Store the opaque blob of worker w, standing for the in-place dict
update persis_info[w].update(...) of the source. -/
def pStore (p : PInfo) (w : Nat) (v : Int) : PInfo :=
  (w, v) :: p.filter (fun x => x.1 != w)

/-- The manager state: history, worker array, elapsed time (abstract
clock read by self.elapsed() in the source), and persistent info map. -/
structure MState where
  hist : Hist
  W : List WRec
  time : Nat := 0
  pinfo : PInfo := []
deriving Repr, DecidableEq, Inhabited

/-- The exit criteria dictionary; a field is none when the key is
absent from the dictionary. -/
structure ExitCriteria where
  elapsed_wallclock_time : Option Nat := none
  sim_max : Option Nat := none
  gen_max : Option Nat := none
  stop_val : Option (String × Int) := none
deriving Repr, Inhabited

/-- Manager.term_test_wallclock: elapsed at or beyond the threshold. -/
def term_test_wallclock (s : MState) (max_elapsed : Nat) : Bool :=
  max_elapsed ≤ s.time

/-- Manager.term_test_sim_max: given_count at or beyond sim_max plus
the seed offset. -/
def term_test_sim_max (s : MState) (sim_max : Nat) : Bool :=
  sim_max + s.hist.offset ≤ s.hist.given_count

/-- Manager.term_test_gen_max: index at or beyond gen_max plus the
seed offset. -/
def term_test_gen_max (s : MState) (gen_max : Nat) : Bool :=
  gen_max + s.hist.offset ≤ s.hist.index

/-- Manager.term_test_stop_val: some non-NaN value of the named column
within the used prefix is at or below the threshold. -/
def term_test_stop_val (s : MState) (stop_val : String × Int) : Bool :=
  (filter_nans (getColPrefix s.hist stop_val.1)).any (fun x => x ≤ stop_val.2)

/-- The manager's term_tests list: exit code paired with the test
outcome, none when the corresponding key is not configured. -/
def term_tests (ec : ExitCriteria) (s : MState) : List (Nat × Option Bool) :=
  [(2, ec.elapsed_wallclock_time.map (fun m => term_test_wallclock s m)),
   (1, ec.sim_max.map (fun m => term_test_sim_max s m)),
   (1, ec.gen_max.map (fun m => term_test_gen_max s m)),
   (1, ec.stop_val.map (fun v => term_test_stop_val s v))]

/-- The loop of Manager.term_test: the first configured test that
trips dictates the returned exit code; 0 when none trips. -/
def first_tripped : List (Nat × Option Bool) → Nat
  | [] => 0
  | (rv, ob) :: rest => if ob = some true then rv else first_tripped rest

/-- Manager.term_test. -/
def term_test (ec : ExitCriteria) (s : MState) : Nat :=
  first_tripped (term_tests ec s)

/-- The libE_info record of a work order or worker payload.  The
persistent field models the presence of the persistent key (together
with the presence of the libE_info key itself); blocking is some
exactly when the blocking key is present. -/
structure LibEInfo where
  H_rows : List Nat := []
  persistent : Bool := false
  blocking : Option (List Nat) := none
  gen_num : Option Nat := none
deriving Repr, DecidableEq, Inhabited

/-- A work order produced by the allocation function for one worker. -/
structure Work where
  tag : Nat
  H_fields : List String := []
  persis_info : Int := 0
  libE_info : LibEInfo := {}
deriving Repr, DecidableEq, Inhabited

/-- A payload dictionary received from a worker. -/
structure DRecv where
  calc_type : Nat
  calc_status : Nat
  calc_out : List Row := []
  libE_info : LibEInfo := {}
  persis_info : Option Int := none
deriving Repr, DecidableEq, Inhabited

/-- Errors of the manager: the structured ManagerException and the
failure of a python assert statement. -/
inductive MgrErr where
  | managerExc (msg : String)
  | assertFail (msg : String)
deriving Repr, DecidableEq, Inhabited

/-- Message of the ManagerException raised on a worker abort signal. -/
def abortExcMsg : String := "Received abort signal from worker"

/-- Message of the assert on an invalid work order. -/
def badOrderMsg : String := "invalid work order"

/-- Message of the assert on blocking an active worker. -/
def blockedActiveMsg : String := "Active worker being blocked; aborting"

/-- Message of the assert on an unknown calculation type. -/
def badCalcTypeMsg : String := "Unknown calculation type received"

/-- Message of the assert on an unknown calculation status. -/
def badCalcStatusMsg : String := "Unknown calculation status received"

/-- Replace the element at index i, identity out of range. -/
def modifyIdx : List α → Nat → (α → α) → List α
  | [], _, _ => []
  | a :: t, 0, f => f a :: t
  | a :: t, n+1, f => a :: modifyIdx t n f

/-- The record of worker w in the array W, with python's 1-based
worker ids indexing the 0-based array as W[w-1]. -/
def wrecAt (W : List WRec) (w : Nat) : WRec :=
  (W[w-1]?).getD default

/-- The persis_state entry of worker w in a manager state. -/
def persisOf (s : MState) (w : Nat) : Nat := (wrecAt s.W w).persis_state

/-- Whether any worker is marked active (any(W['active'])). -/
def anyActive (W : List WRec) : Bool := W.any (fun r => r.active != 0)

/-- Manager._check_work_order expressed as a boolean: the order for
worker w passes the asserts exactly when this returns true.  The
source checks that w is not the manager, that worker w is idle, and,
only when the order's H_rows is non-empty, that every requested field
is a history column name.  The source performs no range check of the
row indices themselves. -/
def check_work_order (work : Work) (w : Nat) (s : MState) : Bool :=
  w != 0 && (wrecAt s.W w).active == 0 &&
    (work.libE_info.H_rows.isEmpty ||
      work.H_fields.all (fun f => s.hist.names.contains f))

/-- Manager._check_received_calc: assert the calculation type is SIM
or GEN, then assert the status is in the closed acceptance list. -/
def check_received_calc (D : DRecv) : Except MgrErr Unit :=
  if [EVAL_SIM_TAG, EVAL_GEN_TAG].contains D.calc_type then
    if [FINISHED_PERSISTENT_SIM_TAG,
        FINISHED_PERSISTENT_GEN_TAG,
        UNSET_TAG,
        MAN_SIGNAL_FINISH,
        MAN_SIGNAL_KILL,
        WORKER_KILL_ON_ERR,
        WORKER_KILL_ON_TIMEOUT,
        WORKER_KILL,
        JOB_FAILED,
        WORKER_DONE].contains D.calc_status then
      Except.ok ()
    else Except.error (MgrErr.assertFail badCalcStatusMsg)
  else Except.error (MgrErr.assertFail badCalcTypeMsg)

/-- CalcInfo.set_calc_status from calc_info.py: map a status flag to
its status description string. -/
def set_calc_status (calc_status_flag : Option Nat) : String :=
  match calc_status_flag with
  | none => "Unknown Status"
  | some f =>
    if f = MAN_SIGNAL_FINISH then "Manager killed on finish"
    else if f = MAN_SIGNAL_KILL then "Manager killed job"
    else if f = WORKER_KILL_ON_ERR then "Worker killed job on Error"
    else if f = WORKER_KILL_ON_TIMEOUT then "Worker killed job on Timeout"
    else if f = WORKER_KILL then "Worker killed"
    else if f = JOB_FAILED then "Job Failed"
    else if f = WORKER_DONE then "Completed"
    else if f = CALC_EXCEPTION then "Exception occurred"
    else "Completed"

/-- Modelled from the spec: hist.update_history_x_out (mark_given),
whose class is not part of the given sources.  For each listed row set
given, record the dispatch time and the sim worker, and increment
given_count by the batch size. -/
def update_history_x_out (h : Hist) (idxs : List Nat) (w : Nat) (now : Nat) : Hist :=
  { h with
    rows := idxs.foldl
      (fun rs i => modifyIdx rs i
        (fun r => { r with given := true, given_time := Int.ofNat now, sim_worker := w })) h.rows,
    given_count := h.given_count + idxs.length }

/-- Modelled from the spec: hist.update_history_f (mark_returned).
Mark the rows dispatched to worker w and not yet returned as returned
and increment sim_count. -/
def update_history_f (h : Hist) (w : Nat) : Hist :=
  { h with
    rows := h.rows.map
      (fun r => if r.sim_worker = w && r.given && !r.returned
                then { r with returned := true } else r),
    sim_count := h.sim_count + 1 }

/-- Modelled from the spec: hist.update_history_x_in
(append_generated).  Write the generated rows at the used prefix end,
stamp their gen worker and sim ids, and advance index. -/
def update_history_x_in (h : Hist) (w : Nat) (calc_out : List Row) : Hist :=
  { h with
    rows := h.rows.take h.index ++
      (List.range calc_out.length).zipWith
        (fun i r => { r with gen_worker := w, sim_id := h.index + i }) calc_out,
    index := h.index + calc_out.length }

/-- The per-element blocking loop of Manager._update_state_on_alloc:
assert each listed worker idle, then mark it blocked and active. -/
def blockWorkers : List Nat → List WRec → Except MgrErr (List WRec)
  | [], W => Except.ok W
  | wi :: rest, W =>
    if (wrecAt W wi).active = 0 then
      blockWorkers rest
        (modifyIdx W (wi-1) (fun r => { r with blocked := true, active := 1 }))
    else Except.error (MgrErr.assertFail blockedActiveMsg)

/-- The worker-array part of Manager._update_state_on_alloc: mark
worker w active with the order's tag, set its persis_state when the
order's libE_info declares persistent, then process the blocking
list. -/
def allocWUpdate (work : Work) (w : Nat) (W : List WRec) : Except MgrErr (List WRec) :=
  let W1 := modifyIdx W (w-1) (fun r => { r with active := work.tag })
  let W2 := if work.libE_info.persistent
            then modifyIdx W1 (w-1) (fun r => { r with persis_state := work.tag })
            else W1
  match work.libE_info.blocking with
  | some bs => blockWorkers bs W2
  | none => Except.ok W2

/-- Manager._update_state_on_alloc: update the worker array and, on a
SIM order, mark the order's rows given in the history. -/
def updateStateOnAlloc (work : Work) (w : Nat) (s : MState) : Except MgrErr MState :=
  let h2 := if work.tag = EVAL_SIM_TAG
            then update_history_x_out s.hist work.libE_info.H_rows w s.time
            else s.hist
  match allocWUpdate work w s.W with
  | Except.error e => Except.error e
  | Except.ok W3 => Except.ok { s with W := W3, hist := h2 }

/-- The clearing loop on a payload's blocking list: each listed worker
is no longer blocked nor active. -/
def unblockWorkers : List Nat → List WRec → List WRec
  | [], W => W
  | wi :: rest, W =>
    unblockWorkers rest
      (modifyIdx W (wi-1) (fun r => { r with blocked := false, active := 0 }))

/-- The per-worker part of Manager._update_state_on_worker_msg's
array update: mark the worker idle, clear its persis_state on a
finished-persistent status, otherwise set persis_state to the
calculation type when the payload declares persistent. -/
def msgWUpdateCore (D : DRecv) (w : Nat) (W : List WRec) : List WRec :=
  let W1 := modifyIdx W (w-1) (fun r => { r with active := 0 })
  if D.calc_status = FINISHED_PERSISTENT_SIM_TAG ∨
     D.calc_status = FINISHED_PERSISTENT_GEN_TAG
  then modifyIdx W1 (w-1) (fun r => { r with persis_state := 0 })
  else if D.libE_info.persistent
       then modifyIdx W1 (w-1) (fun r => { r with persis_state := D.calc_type })
       else W1

/-- The worker-array part of Manager._update_state_on_worker_msg:
the per-worker update, then clearing of any blocked cohort. -/
def msgWUpdate (D : DRecv) (w : Nat) (W : List WRec) : List WRec :=
  match D.libE_info.blocking with
  | some bs => unblockWorkers bs (msgWUpdateCore D w W)
  | none => msgWUpdateCore D w W

/-- The history part of Manager._update_state_on_worker_msg: on a
non-finished status, ingest the payload as simulator output or as
generated rows according to its calculation type. -/
def msgHistUpdate (D : DRecv) (w : Nat) (h : Hist) : Hist :=
  if D.calc_status = FINISHED_PERSISTENT_SIM_TAG ∨
     D.calc_status = FINISHED_PERSISTENT_GEN_TAG then h
  else
    let ha := if D.calc_type = EVAL_SIM_TAG then update_history_f h w else h
    if D.calc_type = EVAL_GEN_TAG then update_history_x_in ha w D.calc_out else ha

/-- Manager._update_state_on_worker_msg: check the payload, update
the worker array and the history, and merge the payload's persis_info
entry. -/
def updateStateOnWorkerMsg (D : DRecv) (w : Nat) (s : MState) : Except MgrErr MState :=
  match check_received_calc D with
  | Except.error e => Except.error e
  | Except.ok _ =>
    Except.ok { s with
      W := msgWUpdate D w s.W,
      hist := msgHistUpdate D w s.hist,
      pinfo := match D.persis_info with
               | some v => pStore s.pinfo w v
               | none => s.pinfo }

/-- The outcome of one wcomms recv call: a successful receive of a
tagged payload, or a transport error from which the payload is
recovered via the pickle-dump retry
(Manager._man_request_pkl_dump_on_error). -/
inductive RecvOutcome where
  | ok (tag : Nat) (D : DRecv)
  | fail (pklD : DRecv)
deriving Repr, DecidableEq, Inhabited

/-- The tag test and dispatch shared by both receive paths of
Manager._handle_msg_from_worker; on the retry path the tag has been
discarded (set to none). -/
def handleMsgCore (tag : Option Nat) (D : DRecv) (w : Nat) (s : MState) : Except MgrErr MState :=
  if tag = some ABORT_ENSEMBLE then Except.error (MgrErr.managerExc abortExcMsg)
  else updateStateOnWorkerMsg D w s

/-- Manager._handle_msg_from_worker: receive from worker w; on a
transport error recover the payload through the pickle dump and
discard the tag; raise the structured manager error on an abort tag;
otherwise apply the payload. -/
def handleMsgFromWorker (w : Nat) (r : RecvOutcome) (s : MState) : Except MgrErr MState :=
  match r with
  | RecvOutcome.ok t D => handleMsgCore (some t) D w s
  | RecvOutcome.fail D => handleMsgCore none D w s

/-- The worker traffic one Manager._receive_from_workers call drains:
the sequence of messages its polling loop delivers (each from the
sending worker), plus the wall time that passes during the phase. -/
structure ReceiveRound where
  msgs : List (Nat × RecvOutcome) := []
  dt : Nat := 0
deriving Repr, Inhabited

/-- Apply the delivered messages of a receive phase in order. -/
def applyMsgs : List (Nat × RecvOutcome) → MState → Except MgrErr MState
  | [], s => Except.ok s
  | (w, m) :: rest, s =>
    match handleMsgFromWorker w m s with
    | Except.error e => Except.error e
    | Except.ok s2 => applyMsgs rest s2

/-- Manager._receive_from_workers over one environment round: handle
each delivered message, then advance the clock by the round's
duration. -/
def receivePhase (r : ReceiveRound) (s : MState) : Except MgrErr MState :=
  match applyMsgs r.msgs s with
  | Except.error e => Except.error e
  | Except.ok s2 => Except.ok { s2 with time := s2.time + r.dt }

/-- The generator specs dictionary (only the keys the modelled code
reads). -/
structure GenSpecsT where
  ins : List String := []
deriving Repr, DecidableEq, Inhabited

/-- The simulator specs dictionary (only the keys the modelled code
reads); outs holds the declared output field names. -/
structure SimSpecsT where
  ins : List String := []
  outs : List String := []
deriving Repr, DecidableEq, Inhabited

/-- The libE_specs keys the coordinator loop reads; the queue update
hook is none when the key is absent. -/
structure LibESpecs where
  queue_update_function : Option (List Row → GenSpecsT → PInfo → PInfo) := none

/-- Manager._queue_update: skipped (persis_info unchanged) when the
queue_update_function key is absent or the history prefix is empty;
otherwise the hook's return value replaces persis_info. -/
def queue_update (specs : LibESpecs) (gs : GenSpecsT) (H : List Row) (p : PInfo) : PInfo :=
  match specs.queue_update_function with
  | none => p
  | some qfun => if H.length = 0 then p else qfun H gs p

/-- The whole manager configuration: exit criteria, specs, and the
user allocation function, which maps the worker array, the history
prefix and persis_info to a work map (in dictionary order) and an
updated persis_info. -/
structure Config where
  ec : ExitCriteria
  libE_specs : LibESpecs := {}
  sim_specs : SimSpecsT := {}
  gen_specs : GenSpecsT := {}
  alloc_f : List WRec → List Row → PInfo → (List (Nat × Work) × PInfo)

/-- The dispatch loop of Manager.run over one allocator batch: before
each order re-run term_test and stop on a trip; check the order
(aborting the run when the check fails), send it, and update the
state. -/
def dispatchLoop (ec : ExitCriteria) : List (Nat × Work) → MState → Except MgrErr MState
  | [], s => Except.ok s
  | (w, work) :: rest, s =>
    if term_test ec s ≠ 0 then Except.ok s
    else if check_work_order work w s then
      match updateStateOnAlloc work w s with
      | Except.error e => Except.error e
      | Except.ok s2 => dispatchLoop ec rest s2
    else Except.error (MgrErr.assertFail badOrderMsg)

/-- The orders actually sent by the dispatch loop, each paired with
the manager state right before its send.  A send happens after the
order check passes (the check aborts before the send, a failing state
update aborts after it). -/
def dispatchTrace (ec : ExitCriteria) : List (Nat × Work) → MState → List (MState × Nat × Work)
  | [], _ => []
  | (w, work) :: rest, s =>
    if term_test ec s ≠ 0 then []
    else if check_work_order work w s then
      match updateStateOnAlloc work w s with
      | Except.error _ => [(s, w, work)]
      | Except.ok s2 => (s, w, work) :: dispatchTrace ec rest s2
    else []

/-- The allocation phase of one Manager.run iteration: when some
worker is idle, call the allocation function and dispatch its batch. -/
def allocPhase (cfg : Config) (s : MState) : Except MgrErr MState :=
  if s.W.any (fun r => r.active == 0) then
    let res := cfg.alloc_f s.W (trimH s.hist) s.pinfo
    dispatchLoop cfg.ec res.1 { s with pinfo := res.2 }
  else Except.ok s

/-- The main loop of Manager.run, driven by the environment's receive
rounds: while term_test returns 0, receive, run the queue update hook,
and run the allocation phase.  An exhausted environment stands for a
finite observed prefix of the run. -/
def runLoop (cfg : Config) : List ReceiveRound → MState → Except MgrErr MState
  | [], s => Except.ok s
  | r :: rest, s =>
    if term_test cfg.ec s ≠ 0 then Except.ok s
    else
      match receivePhase r s with
      | Except.error e => Except.error e
      | Except.ok s1 =>
        let s2 := { s1 with
          pinfo := queue_update cfg.libE_specs cfg.gen_specs (trimH s1.hist) s1.pinfo }
        match allocPhase cfg s2 with
        | Except.error e => Except.error e
        | Except.ok s3 => runLoop cfg rest s3

/-- Manager._final_receive_and_kill: drain while some worker is active
and the exit flag is still 0; a wallclock trip observed with workers
still active sets the exit flag to 2.  Returns none when the
environment is exhausted with workers still active (the source would
keep polling). -/
def finalRK (ec : ExitCriteria) : List ReceiveRound → MState → Except MgrErr (Option (MState × Nat))
  | [], s =>
    if anyActive s.W then Except.ok none else Except.ok (some (s, 0))
  | r :: rest, s =>
    if anyActive s.W then
      match receivePhase r s with
      | Except.error e => Except.error e
      | Except.ok s1 =>
        if term_test ec s1 = 2 ∧ anyActive s1.W then Except.ok (some (s1, 2))
        else finalRK ec rest s1
    else Except.ok (some (s, 0))

/-- Manager.run: the main loop followed by the final drain; the
returned pair is the final state (carrying persis_info) and the exit
flag. -/
def run (cfg : Config) (loopRounds drainRounds : List ReceiveRound) (s : MState) :
    Except MgrErr (Option (MState × Nat)) :=
  match runLoop cfg loopRounds s with
  | Except.error e => Except.error e
  | Except.ok s1 => finalRK cfg.ec drainRounds s1

/-- Row i of the history prefix passed to the allocation function. -/
def rowAt (H : List Row) (i : Nat) : Row := H.getD i default

/-- The q_inds_logical indices of only_persistent_gens: history rows
neither given nor paused nor already put into Work in this call, in
ascending row order. -/
def availRows (H : List Row) (taken : List Nat) : List Nat :=
  (List.range H.length).filter
    (fun i => !(rowAt H i).given && !(rowAt H i).paused && !taken.contains i)

/-- Index of the first row with maximal given_time among inds
(np.argmax picks the first maximum). -/
def argmaxGT (H : List Row) : List Nat → Nat
  | [] => 0
  | i :: rest =>
    rest.foldl
      (fun best j =>
        if (rowAt H j).given_time > (rowAt H best).given_time then j else best) i

/-- The gen_inds of only_persistent_gens: history rows generated by
worker i. -/
def genIndsOf (H : List Row) (i : Nat) : List Nat :=
  (List.range H.length).filter (fun j => (rowAt H j).gen_worker == i)

/-- Number of workers currently in the persistent generator state
(gen_count at entry of only_persistent_gens). -/
def persisGenCount (W : List WRec) : Nat :=
  (W.filter (fun r => r.persis_state == EVAL_GEN_TAG)).length

/-- First loop of only_persistent_gens: hand an idle persistent worker
its latest batch back, once all rows it generated have returned.  (The
source presupposes such a worker has generated rows: on an empty index
set its argmax call would fail, so no order is modelled then.) -/
def alloc_loop1 (H : List Row) (ss : SimSpecsT) (p : PInfo) : List WRec → List (Nat × Work)
  | [] => []
  | r :: rest =>
    if r.active = 0 ∧ r.persis_state ≠ 0 then
      if (genIndsOf H r.worker_id).all (fun i => (rowAt H i).returned) ∧
          genIndsOf H r.worker_id ≠ [] then
        (r.worker_id,
          { tag := EVAL_GEN_TAG, H_fields := ss.ins ++ ss.outs,
            persis_info := pLookup p r.worker_id,
            libE_info := { H_rows := [argmaxGT H (genIndsOf H r.worker_id)],
                           persistent := true,
                           gen_num := some r.worker_id } }) :: alloc_loop1 H ss p rest
      else alloc_loop1 H ss p rest
    else alloc_loop1 H ss p rest

/-- Second loop of only_persistent_gens: each idle non-persistent
worker takes the oldest row not given, not paused and not already in
Work; when no such row remains, a single new persistent generator
order is issued, and only when no worker already is a persistent
generator (gc counts those). -/
def alloc_loop2 (H : List Row) (ss : SimSpecsT) (gs : GenSpecsT) (p : PInfo) :
    List WRec → List Nat → Nat → List (Nat × Work)
  | [], _, _ => []
  | r :: rest, taken, gc =>
    if r.active = 0 ∧ r.persis_state = 0 then
      match availRows H taken with
      | q :: _ =>
        (r.worker_id,
          { tag := EVAL_SIM_TAG, H_fields := ss.ins, persis_info := 0,
            libE_info := { H_rows := [q] } }) ::
          alloc_loop2 H ss gs p rest (taken ++ [q]) gc
      | [] =>
        if gc > 0 then alloc_loop2 H ss gs p rest taken gc
        else
          (r.worker_id,
            { tag := EVAL_GEN_TAG, H_fields := gs.ins,
              persis_info := pLookup p r.worker_id,
              libE_info := { H_rows := [], persistent := true,
                             gen_num := some r.worker_id } }) ::
            alloc_loop2 H ss gs p rest taken (gc + 1)
    else alloc_loop2 H ss gs p rest taken gc

/-- The allocation function only_persistent_gens from
alloc_funcs/start_only_persistent.py: first hand returned batches back
to idle persistent generators, then assign idle non-persistent workers
sim work oldest-row first, starting at most one new persistent
generator when no rows are left. -/
def only_persistent_gens (W : List WRec) (H : List Row) (ss : SimSpecsT) (gs : GenSpecsT)
    (p : PInfo) : List (Nat × Work) × PInfo :=
  (alloc_loop1 H ss p W ++ alloc_loop2 H ss gs p W [] (persisGenCount W), p)

/-- The history rows shipped by the sim orders of a work map, in
dispatch order. -/
def simRowsOf (orders : List (Nat × Work)) : List Nat :=
  (orders.filter (fun x => x.2.tag == EVAL_SIM_TAG)).flatMap
    (fun x => x.2.libE_info.H_rows)

/-- The new persistent generator orders of a work map: generator
orders carrying no history rows (a hand-back to an existing persistent
generator always carries its latest row). -/
def newGensOf (orders : List (Nat × Work)) : List (Nat × Work) :=
  orders.filter (fun x => x.2.tag == EVAL_GEN_TAG && x.2.libE_info.H_rows.isEmpty)

/-- Number of idle, non-persistent workers in the worker array. -/
def idleNonPersisCount (W : List WRec) : Nat :=
  (W.filter (fun r => r.active == 0 && r.persis_state == 0)).length

/-- One observable coordinator event: the dispatch of a work order to
a worker, or the application of a payload received from a worker. -/
inductive Event where
  | alloc (w : Nat) (work : Work)
  | msg (w : Nat) (D : DRecv)
deriving Repr, DecidableEq

/-- The coordinator's state updates, labelled by their events: the
only two sites of the source that mutate the worker array are
Manager._update_state_on_alloc and
Manager._update_state_on_worker_msg.  Worker ids are at least 1. -/
inductive Steps : MState → List Event → MState → Prop
  | nil (s : MState) : Steps s [] s
  | alloc {s s1 s2 : MState} {w : Nat} {work : Work} {tr : List Event} :
      1 ≤ w → updateStateOnAlloc work w s = Except.ok s1 →
      Steps s1 tr s2 → Steps s (Event.alloc w work :: tr) s2
  | msg {s s1 s2 : MState} {w : Nat} {D : DRecv} {tr : List Event} :
      1 ≤ w → updateStateOnWorkerMsg D w s = Except.ok s1 →
      Steps s1 tr s2 → Steps s (Event.msg w D :: tr) s2

/-- The events that can set worker w's persis_state nonzero: a work
order for w whose libE_info declares persistent, or a payload from w
whose libE_info declares persistent. -/
def causesPersis (w : Nat) : Event → Prop
  | Event.alloc w2 work => w2 = w ∧ work.libE_info.persistent = true
  | Event.msg w2 D => w2 = w ∧ D.libE_info.persistent = true

/-- A startup state: no worker holds a persistent state. -/
def initState (s : MState) : Prop := ∀ w, persisOf s w = 0

/-- A non-NaN value strictly below the threshold (the claimed reading
of the word below). -/
def valBelowStrict (thr : Int) : Option Int → Bool
  | some v => decide (v < thr)
  | none => false

/-- A non-NaN value at or below the threshold (the comparison the
source actually performs). -/
def valAtOrBelow (thr : Int) : Option Int → Bool
  | some v => decide (v ≤ thr)
  | none => false

/-- The termination evaluator exactly as the claim describes it,
reading below as strictly below: nested tests in the claimed priority
order, the first tripping test dictating the exit code. -/
def term_test_claimed (ec : ExitCriteria) (s : MState) : Nat :=
  if (match ec.elapsed_wallclock_time with
      | some m => decide (m ≤ s.time)
      | none => false) then 2
  else if (match ec.sim_max with
      | some m => decide (m + s.hist.offset ≤ s.hist.given_count)
      | none => false) then 1
  else if (match ec.gen_max with
      | some m => decide (m + s.hist.offset ≤ s.hist.index)
      | none => false) then 1
  else if (match ec.stop_val with
      | some kv => ((trimH s.hist).map (fun r => rowVal r kv.1)).any (valBelowStrict kv.2)
      | none => false) then 1
  else 0

/-- The termination evaluator as the amended claim describes it: as
term_test_claimed but with the stop_val test tripping at a value at or
below the threshold. -/
def term_test_amended (ec : ExitCriteria) (s : MState) : Nat :=
  if (match ec.elapsed_wallclock_time with
      | some m => decide (m ≤ s.time)
      | none => false) then 2
  else if (match ec.sim_max with
      | some m => decide (m + s.hist.offset ≤ s.hist.given_count)
      | none => false) then 1
  else if (match ec.gen_max with
      | some m => decide (m + s.hist.offset ≤ s.hist.index)
      | none => false) then 1
  else if (match ec.stop_val with
      | some kv => ((trimH s.hist).map (fun r => rowVal r kv.1)).any (valAtOrBelow kv.2)
      | none => false) then 1
  else 0

@[simp] theorem valAtOrBelow_none (thr : Int) : valAtOrBelow thr none = false := rfl

@[simp] theorem valAtOrBelow_some (thr v : Int) :
    valAtOrBelow thr (some v) = decide (v ≤ thr) := rfl

@[simp] theorem filter_nans_cons_none (t : List (Option Int)) :
    filter_nans (none :: t) = filter_nans t := rfl

@[simp] theorem filter_nans_cons_some (v : Int) (t : List (Option Int)) :
    filter_nans (some v :: t) = v :: filter_nans t := rfl

/-- Filtering the NaNs first and testing at-or-below equals testing
each optional value with the NaN-rejecting at-or-below predicate. -/
theorem filter_nans_any_le (xs : List (Option Int)) (thr : Int) :
    (filter_nans xs).any (fun x => x ≤ thr) = xs.any (valAtOrBelow thr) := by
  induction xs with
  | nil => rfl
  | cons a t ih =>
    cases a <;>
      simp only [filter_nans_cons_none, filter_nans_cons_some, List.any_cons,
        valAtOrBelow_none, valAtOrBelow_some, Bool.false_or, ih]

/-- The source's stop_val test in the shape the claim uses: mapping
the column over the trimmed history and testing each value at or below
the threshold. -/
theorem term_test_stop_val_eq (s : MState) (kv : String × Int) :
    term_test_stop_val s kv =
      ((trimH s.hist).map (fun r => rowVal r kv.1)).any (valAtOrBelow kv.2) := by
  unfold term_test_stop_val getColPrefix trimH
  rw [filter_nans_any_le]

/-- C3 (amended): term_test evaluates the configured criteria in the
fixed priority order wallclock, sim_max, gen_max, stop_val and returns
the exit code of the first criterion that trips (2 for wallclock when
elapsed at or beyond the threshold; 1 for sim_max when given_count at
or beyond sim_max plus offset; 1 for gen_max when index at or beyond
gen_max plus offset; 1 for stop_val when some non-NaN value in the
named column within the used prefix is at or below the threshold), and
0 when no configured criterion trips. -/
theorem term_test_matches_description (ec : ExitCriteria) (s : MState) :
    term_test ec s = term_test_amended ec s := by
  unfold term_test term_tests term_test_amended
  cases hw : ec.elapsed_wallclock_time <;>
  cases hs : ec.sim_max <;>
  cases hg : ec.gen_max <;>
  cases hv : ec.stop_val <;>
    simp only [Option.map_none', Option.map_some', first_tripped,
      term_test_wallclock, term_test_sim_max, term_test_gen_max,
      term_test_stop_val_eq, Option.some.injEq, reduceCtorEq, if_false,
      Bool.if_false_right, Bool.if_true_left]

/-- Exit criteria with only a stop value, at threshold 5. -/
def ec3 : ExitCriteria := { stop_val := some ("f", 5) }

/-- A state whose single history row carries the value 5, exactly at
the stop threshold, in column f. -/
def s3 : MState :=
  { hist := { rows := [{ vals := [("f", some 5)] }], index := 1, names := ["f"] },
    W := [] }

/-- C3 (counterexample): a non-NaN column value exactly equal to the
stop threshold trips the source's term_test (which compares at or
below), while the claim's strictly-below reading does not trip; the
claimed description therefore disagrees with the code at this state. -/
theorem term_test_stop_val_strict_cex :
    term_test ec3 s3 = 1 ∧ term_test_claimed ec3 s3 = 0 ∧
      term_test ec3 s3 ≠ term_test_claimed ec3 s3 := by decide

/-- Every order the dispatch loop sends was sent from a state in which
term_test returned 0 and the order check passed. -/
theorem dispatchTrace_mem {ec : ExitCriteria} :
    ∀ (orders : List (Nat × Work)) (s : MState) (x : MState × Nat × Work),
      x ∈ dispatchTrace ec orders s →
        term_test ec x.1 = 0 ∧ check_work_order x.2.2 x.2.1 x.1 = true := by
  intro orders
  induction orders with
  | nil =>
    intro s x hx
    simp [dispatchTrace] at hx
  | cons o rest ih =>
    intro s x hx
    obtain ⟨w, work⟩ := o
    simp only [dispatchTrace] at hx
    split at hx
    · simp at hx
    · rename_i hterm
      split at hx
      · rename_i hchk
        split at hx
        · rcases List.mem_singleton.mp hx with rfl
          exact ⟨not_ne_iff.mp hterm, hchk⟩
        · rcases List.mem_cons.mp hx with rfl | hx2
          · exact ⟨not_ne_iff.mp hterm, hchk⟩
          · exact ih _ x hx2
      · simp at hx

/-- C5 (confirmed): during the dispatch of one allocator batch,
term_test is re-evaluated before each individual order is sent, and an
order is only sent from a state in which no termination criterion has
tripped; once one trips, the remaining orders of the batch are not
sent (they do not appear in the dispatch trace). -/
theorem dispatch_rechecks_termination (ec : ExitCriteria) (orders : List (Nat × Work))
    (s sPre : MState) (w : Nat) (work : Work)
    (hx : (sPre, w, work) ∈ dispatchTrace ec orders s) :
    term_test ec sPre = 0 :=
  (dispatchTrace_mem orders s (sPre, w, work) hx).1

/-- C2 (amended): before an order is sent, the coordinator aborts the
run unless the target is not worker 0, the target worker is idle, and,
when the order carries history rows, every requested field is a
history column name; hence every order actually sent satisfies these
conditions at its pre-send state.  The source performs no range check
of the row indices against index. -/
theorem work_order_checks (ec : ExitCriteria) (orders : List (Nat × Work))
    (s sPre : MState) (w : Nat) (work : Work)
    (hx : (sPre, w, work) ∈ dispatchTrace ec orders s) :
    w ≠ 0 ∧ (wrecAt sPre.W w).active = 0 ∧
      (work.libE_info.H_rows ≠ [] → ∀ f ∈ work.H_fields, f ∈ sPre.hist.names) := by
  have h := (dispatchTrace_mem orders s (sPre, w, work) hx).2
  unfold check_work_order at h
  simp only [Bool.and_eq_true, Bool.or_eq_true, bne_iff_ne, beq_iff_eq,
    List.isEmpty_iff, List.all_eq_true, List.elem_iff] at h
  obtain ⟨⟨hw, hact⟩, hfields⟩ := h
  refine ⟨hw, hact, fun hrows f hf => ?_⟩
  rcases hfields with hempty | hall
  · exact absurd hempty hrows
  · simpa using hall f hf

/-- A state with one idle worker, an empty used history prefix, and
the single column name x. -/
def s2 : MState :=
  { hist := { rows := [], index := 0, names := ["x"] }, W := [{ worker_id := 1 }] }

/-- A sim order whose H_rows index 5 lies far beyond the used history
prefix. -/
def work2 : Work :=
  { tag := EVAL_SIM_TAG, H_fields := ["x"], libE_info := { H_rows := [5] } }

/-- C2 (counterexample): the order check accepts a work order whose
H_rows contains the index 5 although the history holds no rows at all;
the claimed condition that every index in the rows field be below
index is not enforced by the source. -/
theorem check_work_order_no_range_check_cex :
    check_work_order work2 1 s2 = true ∧
      ¬ (∀ i ∈ work2.libE_info.H_rows, i < s2.hist.index) := by decide

/-- Exit criteria with sim_max 1. -/
def ec5 : ExitCriteria := { sim_max := some 1 }

/-- Two idle workers and two ungiven history rows. -/
def s5 : MState :=
  { hist := { rows := [{}, {}], index := 2 },
    W := [{ worker_id := 1 }, { worker_id := 2 }] }

/-- A sim order for row 0. -/
def simA : Work := { tag := EVAL_SIM_TAG, libE_info := { H_rows := [0] } }

/-- A sim order for row 1. -/
def simB : Work := { tag := EVAL_SIM_TAG, libE_info := { H_rows := [1] } }

/-- A two-order batch; dispatching the first trips sim_max, so the
second is never sent. -/
def orders5 : List (Nat × Work) := [(1, simA), (2, simB)]

theorem dispatch_rechecks_termination_witness :
    term_test ec5 s5 = 0 ∧ dispatchTrace ec5 orders5 s5 = [(s5, 1, simA)] :=
  ⟨dispatch_rechecks_termination ec5 orders5 s5 s5 1 simA (by decide), by decide⟩

theorem work_order_checks_witness :
    (1 : Nat) ≠ 0 ∧ (wrecAt s5.W 1).active = 0 ∧
      (simA.libE_info.H_rows ≠ [] → ∀ f ∈ simA.H_fields, f ∈ s5.hist.names) :=
  work_order_checks ec5 orders5 s5 s5 1 simA (by decide)

/-- The payload applier never raises the structured ManagerException:
its only failure is the payload check's assert. -/
theorem updateMsg_no_managerExc (D : DRecv) (w : Nat) (s : MState) (e : MgrErr)
    (h : updateStateOnWorkerMsg D w s = Except.error e) :
    ∃ m, e = MgrErr.assertFail m := by
  unfold updateStateOnWorkerMsg at h
  split at h
  · rename_i e2 hchk
    unfold check_received_calc at hchk
    split at hchk
    · split at hchk
      · cases hchk
      · cases hchk
        cases h
        exact ⟨badCalcStatusMsg, rfl⟩
    · cases hchk
      cases h
      exact ⟨badCalcTypeMsg, rfl⟩
  · cases h

/-- C10 (confirmed): a payload recovered through the pickle-dump
retry is applied as an ordinary worker message with the tag discarded,
so the retry path can never raise the abort error; the abort error
arises only from a successfully received message whose tag is
ABORT_ENSEMBLE. -/
theorem pkl_retry_discards_tag (w : Nat) (D : DRecv) (s : MState) :
    handleMsgFromWorker w (RecvOutcome.fail D) s = updateStateOnWorkerMsg D w s
    ∧ (∀ e, handleMsgFromWorker w (RecvOutcome.fail D) s = Except.error e →
        e ≠ MgrErr.managerExc abortExcMsg)
    ∧ (∀ t D2, handleMsgFromWorker w (RecvOutcome.ok t D2) s =
          Except.error (MgrErr.managerExc abortExcMsg) → t = ABORT_ENSEMBLE) := by
  refine ⟨by simp [handleMsgFromWorker, handleMsgCore], ?_, ?_⟩
  · intro e he
    have he2 : updateStateOnWorkerMsg D w s = Except.error e := by
      simpa [handleMsgFromWorker, handleMsgCore] using he
    obtain ⟨m, rfl⟩ := updateMsg_no_managerExc D w s e he2
    simp
  · intro t D2 ht
    by_contra hne
    have ht2 : updateStateOnWorkerMsg D2 w s =
        Except.error (MgrErr.managerExc abortExcMsg) := by
      simpa [handleMsgFromWorker, handleMsgCore, hne] using ht
    obtain ⟨m, hm⟩ := updateMsg_no_managerExc D2 w s _ ht2
    cases hm

/-- A well-formed payload used to exercise the retry path. -/
def D10 : DRecv := { calc_type := EVAL_SIM_TAG, calc_status := UNSET_TAG }

/-- A small state with one active worker. -/
def s10 : MState :=
  { hist := { rows := [{}], index := 1 }, W := [{ worker_id := 1, active := 1 }] }

theorem pkl_retry_discards_tag_witness :
    handleMsgFromWorker 1 (RecvOutcome.fail D10) s10 = updateStateOnWorkerMsg D10 1 s10
    ∧ (13 : Nat) = ABORT_ENSEMBLE :=
  ⟨(pkl_retry_discards_tag 1 D10 s10).1,
   (pkl_retry_discards_tag 1 D10 s10).2.2 13 D10 (by rfl)⟩

/-- C8 (amended): on a successfully received message tagged
ABORT_ENSEMBLE the coordinator raises the structured ManagerException
with a fixed message; the message does not include the id of the
sending worker. -/
theorem abort_raises_fixed_manager_error (w : Nat) (D : DRecv) (s : MState) :
    handleMsgFromWorker w (RecvOutcome.ok ABORT_ENSEMBLE D) s =
      Except.error (MgrErr.managerExc abortExcMsg) := by
  simp [handleMsgFromWorker, handleMsgCore]

/-- A payload accompanying an abort-tagged message. -/
def D8 : DRecv := { calc_type := EVAL_SIM_TAG, calc_status := UNSET_TAG }

/-- A state with two active workers. -/
def s8 : MState :=
  { hist := {},
    W := [{ worker_id := 1, active := 1 }, { worker_id := 2, active := 1 }] }

/-- C8 (counterexample): no decoding of the raised manager error can
recover the id of the worker that sent the abort, because workers 1
and 2 produce the identical error value; the error does not carry the
worker id. -/
theorem abort_error_carries_no_worker_id_cex :
    ¬ ∃ decode : MgrErr → Nat,
      ∀ w : Nat, ∀ e : MgrErr,
        handleMsgFromWorker w (RecvOutcome.ok ABORT_ENSEMBLE D8) s8 = Except.error e →
          decode e = w := by
  rintro ⟨decode, hdec⟩
  have h1 := hdec 1 (MgrErr.managerExc abortExcMsg) (by rfl)
  have h2 := hdec 2 (MgrErr.managerExc abortExcMsg) (by rfl)
  omega

/-- C9 (confirmed): the manager's status check accepts calc_status
exactly when it lies in the closed ten-element list; a payload with
calc_status CALC_EXCEPTION (which CalcInfo.set_calc_status maps to the
status string Exception occurred) fails the check, and applying such a
payload is fatal to the run. -/
theorem calc_status_acceptance (D : DRecv)
    (hty : D.calc_type = EVAL_SIM_TAG ∨ D.calc_type = EVAL_GEN_TAG) :
    (check_received_calc D = Except.ok () ↔
      D.calc_status ∈ [FINISHED_PERSISTENT_SIM_TAG, FINISHED_PERSISTENT_GEN_TAG,
        UNSET_TAG, MAN_SIGNAL_FINISH, MAN_SIGNAL_KILL, WORKER_KILL_ON_ERR,
        WORKER_KILL_ON_TIMEOUT, WORKER_KILL, JOB_FAILED, WORKER_DONE])
    ∧ (D.calc_status = CALC_EXCEPTION →
        ∀ w s, updateStateOnWorkerMsg D w s =
          Except.error (MgrErr.assertFail badCalcStatusMsg))
    ∧ set_calc_status (some CALC_EXCEPTION) = "Exception occurred" := by
  have htyb : ([EVAL_SIM_TAG, EVAL_GEN_TAG].contains D.calc_type) = true := by
    rcases hty with h | h <;> simp [h]
  refine ⟨⟨fun hok => ?_, fun hmem => ?_⟩, fun hce w s => ?_, rfl⟩
  · unfold check_received_calc at hok
    rw [if_pos htyb] at hok
    split at hok
    · rename_i hst
      simpa using hst
    · cases hok
  · unfold check_received_calc
    rw [if_pos htyb, if_pos (by simpa using hmem)]
  · have hchk : check_received_calc D =
        Except.error (MgrErr.assertFail badCalcStatusMsg) := by
      unfold check_received_calc
      rw [if_pos htyb, if_neg (by rw [hce]; decide)]
    simp [updateStateOnWorkerMsg, hchk]

/-- A payload carrying the CALC_EXCEPTION status. -/
def D9 : DRecv := { calc_type := EVAL_SIM_TAG, calc_status := CALC_EXCEPTION }

theorem calc_status_acceptance_witness :
    updateStateOnWorkerMsg D9 1 s10 = Except.error (MgrErr.assertFail badCalcStatusMsg)
    ∧ set_calc_status (some CALC_EXCEPTION) = "Exception occurred" :=
  ⟨(calc_status_acceptance D9 (Or.inl rfl)).2.1 rfl 1 s10,
   (calc_status_acceptance D9 (Or.inl rfl)).2.2⟩

/-- C6 (amended): the queue update hook is called with the current
history prefix and persis_info, and its return value replaces
persis_info, exactly when the queue_update_function key is present and
the history prefix is non-empty; when the key is absent, or the
history prefix is empty, the hook is skipped and persis_info is
unchanged. -/
theorem queue_update_behaviour (specs : LibESpecs) (gs : GenSpecsT)
    (H : List Row) (p : PInfo) :
    (specs.queue_update_function = none → queue_update specs gs H p = p)
    ∧ (∀ f, specs.queue_update_function = some f → H = [] →
        queue_update specs gs H p = p)
    ∧ (∀ f, specs.queue_update_function = some f → H ≠ [] →
        queue_update specs gs H p = f H gs p) := by
  refine ⟨fun h => by simp [queue_update, h],
    fun f hf hH => by simp [queue_update, hf, hH],
    fun f hf hH => by simp [queue_update, hf, List.length_eq_zero, hH]⟩

/-- A queue update hook returning a recognizable persis_info value. -/
def qfun6 : List Row → GenSpecsT → PInfo → PInfo := fun _ _ _ => [(1, 99)]

/-- A configuration with the queue update hook present, no exit
criteria, and an allocator that never produces orders. -/
def cfg6 : Config :=
  { ec := {},
    libE_specs := { queue_update_function := some qfun6 },
    alloc_f := fun _ _ p => ([], p) }

/-- A state with an empty history prefix and one idle worker. -/
def s6 : MState := { hist := {}, W := [{ worker_id := 1 }] }

/-- A receive round delivering nothing. -/
def round6 : ReceiveRound := {}

/-- C6 (counterexample): an iteration of the main loop with a
configured queue_update_function but an empty history prefix leaves
persis_info unchanged; the hook's return value does not replace
persis_info although the key is present. -/
theorem queue_update_skipped_on_empty_cex :
    runLoop cfg6 [round6] s6 = Except.ok s6
    ∧ qfun6 (trimH s6.hist) cfg6.gen_specs s6.pinfo = [(1, 99)]
    ∧ s6.pinfo ≠ [(1, 99)] := by
  refine ⟨by rfl, by rfl, by decide⟩

/-- A single default history row. -/
def row6 : Row := {}

theorem queue_update_behaviour_witness :
    queue_update { queue_update_function := some qfun6 } {} [row6] [] =
      qfun6 [row6] {} [] :=
  (queue_update_behaviour { queue_update_function := some qfun6 } {} [row6] []).2.2
    qfun6 rfl (by simp)

/-- The flag returned by the final drain is 0 with all workers
drained, or 2 with the wallclock criterion tripped and workers still
active; it is never 1. -/
theorem finalRK_flags :
    ∀ (rounds : List ReceiveRound) (ec : ExitCriteria) (s s2 : MState) (flag : Nat),
      finalRK ec rounds s = Except.ok (some (s2, flag)) →
        (flag = 0 ∧ anyActive s2.W = false) ∨
          (flag = 2 ∧ term_test ec s2 = 2 ∧ anyActive s2.W = true) := by
  intro rounds
  induction rounds with
  | nil =>
    intro ec s s2 flag h
    unfold finalRK at h
    split at h
    · simp at h
    · rename_i hact
      simp only [Except.ok.injEq, Option.some.injEq, Prod.mk.injEq] at h
      obtain ⟨rfl, rfl⟩ := h
      exact Or.inl ⟨rfl, by simpa using hact⟩
  | cons r rest ih =>
    intro ec s s2 flag h
    unfold finalRK at h
    split at h
    · split at h
      · simp at h
      · rename_i s1 hrecv
        split at h
        · rename_i hcond
          simp only [Except.ok.injEq, Option.some.injEq, Prod.mk.injEq] at h
          obtain ⟨rfl, rfl⟩ := h
          exact Or.inr ⟨rfl, hcond.1, hcond.2⟩
        · exact ih ec s1 s2 flag h
    · rename_i hact
      simp only [Except.ok.injEq, Option.some.injEq, Prod.mk.injEq] at h
      obtain ⟨rfl, rfl⟩ := h
      exact Or.inl ⟨rfl, by simpa using hact⟩

/-- C1 (amended): the pair returned by the final drain, and so by
run, has exit flag 0 when the run ended cleanly with all workers
drained, including when a non-wallclock criterion (sim_max, gen_max or
stop_val) tripped, and exit flag 2 when the wallclock criterion
tripped during the drain with workers still active; the flag is never
1. -/
theorem run_exit_flags (cfg : Config) (lr dr : List ReceiveRound)
    (s s2 : MState) (flag : Nat)
    (h : run cfg lr dr s = Except.ok (some (s2, flag))) :
    (flag = 0 ∧ anyActive s2.W = false) ∨
      (flag = 2 ∧ term_test cfg.ec s2 = 2 ∧ anyActive s2.W = true) := by
  unfold run at h
  split at h
  · simp at h
  · rename_i s1 hloop
    exact finalRK_flags dr cfg.ec s1 s2 flag h

/-- Exit criteria with sim_max 0. -/
def ec0 : ExitCriteria := { sim_max := some 0 }

/-- A configuration for the sim_max 0 boundary scenario. -/
def cfg0 : Config := { ec := ec0, alloc_f := fun _ _ p => ([], p) }

/-- One idle worker and a one-row pre-seeded history whose seed row is
already given, so given_count equals the offset 1. -/
def s0c : MState :=
  { hist := { rows := [{ given := true }], index := 1, given_count := 1, offset := 1 },
    W := [{ worker_id := 1 }] }

/-- A receive round delivering nothing. -/
def round0 : ReceiveRound := {}

/-- C1 (counterexample): with sim_max 0 and a non-empty given seed,
the non-wallclock criterion sim_max trips (term_test returns 1), the
loop stops before dispatching anything, the drain finds no active
worker, and run returns exit flag 0 rather than the claimed 1. -/
theorem run_exit_flag_cex :
    term_test cfg0.ec s0c = 1
    ∧ run cfg0 [round0] [] s0c = Except.ok (some (s0c, 0))
    ∧ (0 : Nat) ≠ 1 := by
  refine ⟨by decide, by rfl, by decide⟩

theorem run_exit_flags_witness :
    ((0 : Nat) = 0 ∧ anyActive s0c.W = false) ∨
      ((0 : Nat) = 2 ∧ term_test cfg0.ec s0c = 2 ∧ anyActive s0c.W = true) :=
  run_exit_flags cfg0 [round0] [] s0c s0c 0 (by rfl)

/-- Reading modifyIdx at any position. -/
theorem modifyIdx_getElem? (l : List α) (i : Nat) (f : α → α) (j : Nat) :
    (modifyIdx l i f)[j]? = if i = j then (l[j]?).map f else l[j]? := by
  induction l generalizing i j with
  | nil => simp [modifyIdx]
  | cons a t ih =>
    cases i with
    | zero =>
      cases j with
      | zero => simp [modifyIdx]
      | succ j2 => simp [modifyIdx]
    | succ i2 =>
      cases j with
      | zero => simp [modifyIdx]
      | succ j2 => simpa [modifyIdx, Nat.succ_inj] using ih i2 j2

/-- A modification that keeps persis_state keeps every worker's
persis_state. -/
theorem wrecAt_modifyIdx_persis (W : List WRec) (i : Nat) (f : WRec → WRec)
    (hf : ∀ r, (f r).persis_state = r.persis_state) (w : Nat) :
    (wrecAt (modifyIdx W i f) w).persis_state = (wrecAt W w).persis_state := by
  unfold wrecAt
  rw [modifyIdx_getElem?]
  split
  · cases h : W[w-1]? with
    | none => simp
    | some a => simp [hf]
  · rfl

/-- A modification at a different index keeps a worker's record. -/
theorem wrecAt_modifyIdx_ne (W : List WRec) (i : Nat) (f : WRec → WRec) (w : Nat)
    (h : i ≠ w - 1) : wrecAt (modifyIdx W i f) w = wrecAt W w := by
  unfold wrecAt
  rw [modifyIdx_getElem?, if_neg h]

/-- The blocking loop changes only blocked and active flags, so every
worker's persis_state is preserved. -/
theorem blockWorkers_persis :
    ∀ (bs : List Nat) (W W2 : List WRec), blockWorkers bs W = Except.ok W2 →
      ∀ w, (wrecAt W2 w).persis_state = (wrecAt W w).persis_state := by
  intro bs
  induction bs with
  | nil =>
    intro W W2 h w
    cases h
    rfl
  | cons b rest ih =>
    intro W W2 h w
    unfold blockWorkers at h
    split at h
    · rw [ih _ W2 h w, wrecAt_modifyIdx_persis W (b-1)
        (fun r => { r with blocked := true, active := 1 }) (fun r => rfl) w]
    · cases h

/-- The unblocking loop changes only blocked and active flags, so
every worker's persis_state is preserved. -/
theorem unblockWorkers_persis :
    ∀ (bs : List Nat) (W : List WRec) (w : Nat),
      (wrecAt (unblockWorkers bs W) w).persis_state = (wrecAt W w).persis_state := by
  intro bs
  induction bs with
  | nil => intro W w; rfl
  | cons b rest ih =>
    intro W w
    unfold unblockWorkers
    rw [ih _ w, wrecAt_modifyIdx_persis W (b-1)
      (fun r => { r with blocked := false, active := 0 }) (fun r => rfl) w]

/-- A dispatch's worker-array update makes a worker's persis_state
nonzero only when the order was for that worker and declared
persistent. -/
theorem allocWUpdate_persis (work : Work) (w2 : Nat) (W W3 : List WRec)
    (h : allocWUpdate work w2 W = Except.ok W3) (w : Nat)
    (hw : 1 ≤ w) (hw2 : 1 ≤ w2)
    (hp : (wrecAt W3 w).persis_state ≠ 0) :
    (wrecAt W w).persis_state ≠ 0 ∨ (w = w2 ∧ work.libE_info.persistent = true) := by
  by_cases hpers : work.libE_info.persistent = true
  · by_cases hww : w = w2
    · exact Or.inr ⟨hww, hpers⟩
    · left
      have hne : w2 - 1 ≠ w - 1 := by omega
      have hkeep : (wrecAt W3 w).persis_state = (wrecAt W w).persis_state := by
        simp only [allocWUpdate, hpers, if_true] at h
        split at h
        · rw [blockWorkers_persis _ _ _ h w,
            wrecAt_modifyIdx_ne _ _ _ _ hne, wrecAt_modifyIdx_ne _ _ _ _ hne]
        · cases h
          rw [wrecAt_modifyIdx_ne _ _ _ _ hne, wrecAt_modifyIdx_ne _ _ _ _ hne]
      rwa [hkeep] at hp
  · left
    have hpersF : work.libE_info.persistent = false := by simpa using hpers
    have hkeep : (wrecAt W3 w).persis_state = (wrecAt W w).persis_state := by
      simp only [allocWUpdate, hpersF, Bool.false_eq_true, if_false] at h
      split at h
      · rw [blockWorkers_persis _ _ _ h w,
          wrecAt_modifyIdx_persis W (w2-1)
            (fun r => { r with active := work.tag }) (fun r => rfl) w]
      · cases h
        rw [wrecAt_modifyIdx_persis W (w2-1)
          (fun r => { r with active := work.tag }) (fun r => rfl) w]
    rwa [hkeep] at hp

/-- A payload's worker-array update makes a worker's persis_state
nonzero only when the payload came from that worker and declared
persistent. -/
theorem msgWUpdate_persis (D : DRecv) (w2 : Nat) (W : List WRec) (w : Nat)
    (hw : 1 ≤ w) (hw2 : 1 ≤ w2)
    (hp : (wrecAt (msgWUpdate D w2 W) w).persis_state ≠ 0) :
    (wrecAt W w).persis_state ≠ 0 ∨ (w = w2 ∧ D.libE_info.persistent = true) := by
  have hp2 : (wrecAt (msgWUpdateCore D w2 W) w).persis_state ≠ 0 := by
    unfold msgWUpdate at hp
    split at hp
    · rwa [unblockWorkers_persis] at hp
    · exact hp
  by_cases hfin : D.calc_status = FINISHED_PERSISTENT_SIM_TAG ∨
      D.calc_status = FINISHED_PERSISTENT_GEN_TAG
  · left
    unfold msgWUpdateCore at hp2
    rw [if_pos hfin] at hp2
    by_cases hww : w2 - 1 = w - 1
    · exfalso
      apply hp2
      unfold wrecAt
      rw [modifyIdx_getElem?, if_pos hww, modifyIdx_getElem?, if_pos hww]
      cases W[w-1]? <;> rfl
    · rwa [wrecAt_modifyIdx_ne _ _ _ _ hww,
        wrecAt_modifyIdx_persis W (w2-1)
          (fun r => { r with active := 0 }) (fun r => rfl) w] at hp2
  · unfold msgWUpdateCore at hp2
    rw [if_neg hfin] at hp2
    by_cases hpers : D.libE_info.persistent = true
    · by_cases hww : w = w2
      · exact Or.inr ⟨hww, hpers⟩
      · left
        have hne : w2 - 1 ≠ w - 1 := by omega
        rwa [if_pos hpers, wrecAt_modifyIdx_ne _ _ _ _ hne,
          wrecAt_modifyIdx_persis W (w2-1)
            (fun r => { r with active := 0 }) (fun r => rfl) w] at hp2
    · left
      have hpersF : D.libE_info.persistent = false := by simpa using hpers
      rwa [if_neg (by simp [hpersF]), wrecAt_modifyIdx_persis W (w2-1)
        (fun r => { r with active := 0 }) (fun r => rfl) w] at hp2

/-- Lifting allocWUpdate_persis to the full dispatch update. -/
theorem updateAlloc_persis (work : Work) (w2 : Nat) (s s2 : MState)
    (h : updateStateOnAlloc work w2 s = Except.ok s2) (w : Nat)
    (hw : 1 ≤ w) (hw2 : 1 ≤ w2) (hp : persisOf s2 w ≠ 0) :
    persisOf s w ≠ 0 ∨ (w = w2 ∧ work.libE_info.persistent = true) := by
  simp only [updateStateOnAlloc] at h
  split at h
  · simp at h
  · rename_i W3 halloc
    cases h
    exact allocWUpdate_persis work w2 s.W W3 halloc w hw hw2 hp

/-- Lifting msgWUpdate_persis to the full payload update. -/
theorem updateMsg_persis (D : DRecv) (w2 : Nat) (s s2 : MState)
    (h : updateStateOnWorkerMsg D w2 s = Except.ok s2) (w : Nat)
    (hw : 1 ≤ w) (hw2 : 1 ≤ w2) (hp : persisOf s2 w ≠ 0) :
    persisOf s w ≠ 0 ∨ (w = w2 ∧ D.libE_info.persistent = true) := by
  unfold updateStateOnWorkerMsg at h
  split at h
  · simp at h
  · cases h
    exact msgWUpdate_persis D w2 s.W w hw hw2 hp

/-- Along coordinator steps, a nonzero persis_state is explained by
the initial state or by a causing event in the trace. -/
theorem steps_persis_cause {s : MState} {tr : List Event} {s2 : MState}
    (hsteps : Steps s tr s2) :
    ∀ w, 1 ≤ w → persisOf s2 w ≠ 0 →
      persisOf s w ≠ 0 ∨ ∃ e ∈ tr, causesPersis w e := by
  induction hsteps with
  | nil s0 =>
    intro w hw hp
    exact Or.inl hp
  | alloc hw2 hupd hrest ih =>
    intro w hw hp
    rcases ih w hw hp with hmid | ⟨e, he, hc⟩
    · rcases updateAlloc_persis _ _ _ _ hupd w hw hw2 hmid with h0 | hcause
      · exact Or.inl h0
      · exact Or.inr ⟨Event.alloc _ _, List.mem_cons_self _ _,
          ⟨hcause.1.symm, hcause.2⟩⟩
    · exact Or.inr ⟨e, List.mem_cons_of_mem _ he, hc⟩
  | msg hw2 hupd hrest ih =>
    intro w hw hp
    rcases ih w hw hp with hmid | ⟨e, he, hc⟩
    · rcases updateMsg_persis _ _ _ _ hupd w hw hw2 hmid with h0 | hcause
      · exact Or.inl h0
      · exact Or.inr ⟨Event.msg _ _, List.mem_cons_self _ _,
          ⟨hcause.1.symm, hcause.2⟩⟩
    · exact Or.inr ⟨e, List.mem_cons_of_mem _ he, hc⟩

/-- C4 (amended): in every state reachable by coordinator steps from
a startup state, a worker with nonzero persis_state is explained by an
earlier event that declared persistence: either a payload the worker
sent with libE_info.persistent, or a work order dispatched to the
worker whose libE_info declares persistent.  (Dispatches do set
persis_state, contrary to the original claim.) -/
theorem persis_state_has_cause (s0 : MState) (tr : List Event) (s : MState)
    (hinit : initState s0) (hsteps : Steps s0 tr s) (w : Nat) (hw : 1 ≤ w)
    (hp : persisOf s w ≠ 0) :
    ∃ e ∈ tr, causesPersis w e := by
  rcases steps_persis_cause hsteps w hw hp with h0 | h
  · exact absurd (hinit w) h0
  · exact h

/-- A persistent generator order for worker 1. -/
def workC4 : Work :=
  { tag := EVAL_GEN_TAG,
    libE_info := { H_rows := [], persistent := true, gen_num := some 1 } }

/-- A startup state with the single idle worker 1. -/
def sC4a : MState := { hist := {}, W := [{ worker_id := 1 }] }

/-- The state after dispatching the persistent generator order to
worker 1: the worker is active and in the persistent state, although
it never sent any payload. -/
def sC4b : MState :=
  { hist := {},
    W := [{ worker_id := 1, active := EVAL_GEN_TAG, persis_state := EVAL_GEN_TAG }] }

/-- Every worker is idle and non-persistent at the startup state. -/
theorem sC4a_init : initState sC4a := by
  intro w
  show ((([({ worker_id := 1 } : WRec)] : List WRec)[w-1]?).getD default).persis_state = 0
  cases h1 : w - 1 with
  | zero => rfl
  | succ n => simp; rfl

/-- Dispatching the persistent generator order is one coordinator
step. -/
theorem sC4_step : Steps sC4a [Event.alloc 1 workC4] sC4b :=
  Steps.alloc (by decide) (by rfl) (Steps.nil sC4b)

/-- C4 (counterexample): after the single coordinator step that
dispatches a persistent generator order to worker 1, the worker's
persis_state is nonzero although no payload was ever received from it;
persis_state does become nonzero from the dispatch of a work order
whose libE_info declares persistent. -/
theorem persis_from_alloc_cex :
    ¬ (∀ (s0 : MState) (tr : List Event) (s : MState), initState s0 → Steps s0 tr s →
        ∀ w, 1 ≤ w → persisOf s w ≠ 0 →
          ∃ D, Event.msg w D ∈ tr ∧ D.libE_info.persistent = true) := by
  intro hclaim
  obtain ⟨D, hmem, _⟩ :=
    hclaim sC4a [Event.alloc 1 workC4] sC4b sC4a_init sC4_step 1 (by decide) (by decide)
  simp at hmem

theorem persis_state_has_cause_witness :
    ∃ e ∈ [Event.alloc 1 workC4], causesPersis 1 e :=
  persis_state_has_cause sC4a [Event.alloc 1 workC4] sC4b sC4a_init sC4_step 1
    (by decide) (by decide)

/-- The available rows for a taken list are the untaken part of the
full available list. -/
theorem availRows_filter (H : List Row) (taken : List Nat) :
    availRows H taken = (availRows H []).filter (fun i => !taken.contains i) := by
  unfold availRows
  rw [List.filter_filter]
  apply List.filter_congr
  intro i _
  simp [Bool.and_comm]

/-- On a duplicate-free list, keeping the elements outside its first k
equals dropping the first k. -/
theorem filter_not_take_contains :
    ∀ (l : List Nat), l.Nodup → ∀ k,
      l.filter (fun i => !(l.take k).contains i) = l.drop k := by
  intro l
  induction l with
  | nil =>
    intro _ k
    simp
  | cons a t ih =>
    intro hnd k
    obtain ⟨ha, ht⟩ := List.nodup_cons.mp hnd
    cases k with
    | zero => simp
    | succ k2 =>
      rw [List.take_succ_cons, List.drop_succ_cons, List.filter_cons_of_neg (by simp)]
      rw [List.filter_congr (fun i hi => ?_), ih ht k2]
      have hne : i ≠ a := fun e => ha (e ▸ hi)
      simp [List.contains_cons, hne]

/-- The full available list is strictly ascending. -/
theorem availRows_pairwise (H : List Row) :
    List.Pairwise (· < ·) (availRows H []) :=
  List.Pairwise.filter _ (List.pairwise_lt_range _)

/-- The full available list is duplicate-free. -/
theorem availRows_nodup (H : List Row) : (availRows H []).Nodup :=
  List.Pairwise.imp (fun h => Nat.ne_of_lt h) (availRows_pairwise H)

/-- Taking the first k available rows leaves exactly the rest
available. -/
theorem availRows_drop (H : List Row) (k : Nat) :
    availRows H ((availRows H []).take k) = (availRows H []).drop k := by
  rw [availRows_filter, filter_not_take_contains _ (availRows_nodup H) k]

/-- Idle non-persistent workers, counted over a cons. -/
theorem idleCount_cons (r : WRec) (rest : List WRec) :
    idleNonPersisCount (r :: rest) =
      (if r.active = 0 ∧ r.persis_state = 0 then 1 else 0) + idleNonPersisCount rest := by
  unfold idleNonPersisCount
  rw [List.filter_cons]
  by_cases h : r.active = 0 ∧ r.persis_state = 0
  · rw [if_pos h, if_pos (by simp [h.1, h.2]), List.length_cons]
    omega
  · rw [if_neg h, if_neg (by simpa using h)]
    omega

/-- Sim rows of an appended work map. -/
theorem simRowsOf_append (l1 l2 : List (Nat × Work)) :
    simRowsOf (l1 ++ l2) = simRowsOf l1 ++ simRowsOf l2 := by
  unfold simRowsOf
  rw [List.filter_append, List.flatMap_append]

/-- New generator orders of an appended work map. -/
theorem newGensOf_append (l1 l2 : List (Nat × Work)) :
    newGensOf (l1 ++ l2) = newGensOf l1 ++ newGensOf l2 := by
  unfold newGensOf
  rw [List.filter_append]

/-- Sim rows of a work map beginning with a sim order. -/
theorem simRowsOf_cons_sim (w : Nat) (fields : List String) (pi : Int)
    (li : LibEInfo) (rest : List (Nat × Work)) :
    simRowsOf ((w, Work.mk EVAL_SIM_TAG fields pi li) :: rest) =
      li.H_rows ++ simRowsOf rest := by
  unfold simRowsOf
  rw [List.filter_cons_of_pos (by simp), List.flatMap_cons]

/-- Sim rows of a work map beginning with a generator order. -/
theorem simRowsOf_cons_gen (w : Nat) (fields : List String) (pi : Int)
    (li : LibEInfo) (rest : List (Nat × Work)) :
    simRowsOf ((w, Work.mk EVAL_GEN_TAG fields pi li) :: rest) = simRowsOf rest := by
  unfold simRowsOf
  rw [List.filter_cons_of_neg (by simp [EVAL_GEN_TAG, EVAL_SIM_TAG])]

/-- The second allocation loop, started after the first k available
rows are already taken, assigns exactly the following available rows,
one per idle non-persistent worker, oldest first. -/
theorem alloc_loop2_sims (H : List Row) (ss : SimSpecsT) (gs : GenSpecsT) (p : PInfo) :
    ∀ (ws : List WRec) (k gc : Nat),
      simRowsOf (alloc_loop2 H ss gs p ws ((availRows H []).take k) gc) =
        ((availRows H []).drop k).take (idleNonPersisCount ws) := by
  intro ws
  induction ws with
  | nil =>
    intro k gc
    simp [alloc_loop2, simRowsOf, idleNonPersisCount]
  | cons r rest ih =>
    intro k gc
    unfold alloc_loop2
    by_cases hidle : r.active = 0 ∧ r.persis_state = 0
    · rw [if_pos hidle, availRows_drop, idleCount_cons, if_pos hidle]
      split
      · rename_i q qs heq
        have htake : (availRows H []).take k ++ [q] = (availRows H []).take (k+1) := by
          rw [List.take_add, heq]
          rfl
        have hdrop : (availRows H []).drop (k+1) = qs := by
          rw [← List.drop_drop, heq]
          rfl
        rw [heq, htake, simRowsOf_cons_sim, ih (k+1) gc, hdrop,
          Nat.add_comm 1 (idleNonPersisCount rest), List.take_succ_cons]
        simp
      · rename_i heq
        rw [heq]
        by_cases hgc : gc > 0
        · rw [if_pos hgc, ih k gc, heq]
          simp
        · rw [if_neg hgc, simRowsOf_cons_gen, ih k (gc+1), heq]
          simp
    · rw [if_neg hidle, idleCount_cons, if_neg hidle, ih k gc, Nat.zero_add]

/-- New generator orders of a work map beginning with a sim order. -/
theorem newGensOf_cons_sim (w : Nat) (fields : List String) (pi : Int)
    (li : LibEInfo) (rest : List (Nat × Work)) :
    newGensOf ((w, Work.mk EVAL_SIM_TAG fields pi li) :: rest) = newGensOf rest := by
  unfold newGensOf
  rw [List.filter_cons_of_neg (by simp [EVAL_SIM_TAG, EVAL_GEN_TAG])]

/-- New generator orders of a work map beginning with a rowless
generator order. -/
theorem newGensOf_cons_gen_empty (w : Nat) (fields : List String) (pi : Int)
    (li : LibEInfo) (hrows : li.H_rows = []) (rest : List (Nat × Work)) :
    newGensOf ((w, Work.mk EVAL_GEN_TAG fields pi li) :: rest) =
      (w, Work.mk EVAL_GEN_TAG fields pi li) :: newGensOf rest := by
  unfold newGensOf
  rw [List.filter_cons_of_pos (by simp [hrows])]

/-- New generator orders of a work map beginning with a generator
order that carries rows. -/
theorem newGensOf_cons_gen_rows (w : Nat) (fields : List String) (pi : Int)
    (li : LibEInfo) (hrows : li.H_rows ≠ []) (rest : List (Nat × Work)) :
    newGensOf ((w, Work.mk EVAL_GEN_TAG fields pi li) :: rest) = newGensOf rest := by
  unfold newGensOf
  rw [List.filter_cons_of_neg (by simp [hrows])]

/-- The second allocation loop issues no new generator order when a
persistent generator is already counted. -/
theorem alloc_loop2_gens_pos (H : List Row) (ss : SimSpecsT) (gs : GenSpecsT) (p : PInfo) :
    ∀ (ws : List WRec) (taken : List Nat) (gc : Nat), gc > 0 →
      newGensOf (alloc_loop2 H ss gs p ws taken gc) = [] := by
  intro ws
  induction ws with
  | nil =>
    intro taken gc _
    rfl
  | cons r rest ih =>
    intro taken gc hgc
    unfold alloc_loop2
    by_cases hidle : r.active = 0 ∧ r.persis_state = 0
    · rw [if_pos hidle]
      split
      · rw [newGensOf_cons_sim]
        exact ih _ gc hgc
      · rw [if_pos hgc]
        exact ih _ gc hgc
    · rw [if_neg hidle]
      exact ih _ gc hgc

/-- The second allocation loop issues at most one new generator
order. -/
theorem alloc_loop2_gens_le_one (H : List Row) (ss : SimSpecsT) (gs : GenSpecsT) (p : PInfo) :
    ∀ (ws : List WRec) (taken : List Nat) (gc : Nat),
      (newGensOf (alloc_loop2 H ss gs p ws taken gc)).length ≤ 1 := by
  intro ws
  induction ws with
  | nil =>
    intro taken gc
    simp [alloc_loop2, newGensOf]
  | cons r rest ih =>
    intro taken gc
    unfold alloc_loop2
    by_cases hidle : r.active = 0 ∧ r.persis_state = 0
    · rw [if_pos hidle]
      split
      · rw [newGensOf_cons_sim]
        exact ih _ gc
      · by_cases hgc : gc > 0
        · rw [if_pos hgc]
          exact ih _ gc
        · rw [if_neg hgc, newGensOf_cons_gen_empty _ _ _ _ rfl,
            alloc_loop2_gens_pos H ss gs p rest _ (gc+1) (by omega)]
          simp
    · rw [if_neg hidle]
      exact ih _ gc

/-- Either the second allocation loop issues no new generator order,
or it has assigned every remaining available row. -/
theorem alloc_loop2_gens_or (H : List Row) (ss : SimSpecsT) (gs : GenSpecsT) (p : PInfo) :
    ∀ (ws : List WRec) (k gc : Nat),
      newGensOf (alloc_loop2 H ss gs p ws ((availRows H []).take k) gc) = [] ∨
        simRowsOf (alloc_loop2 H ss gs p ws ((availRows H []).take k) gc) =
          (availRows H []).drop k := by
  intro ws
  induction ws with
  | nil =>
    intro k gc
    exact Or.inl rfl
  | cons r rest ih =>
    intro k gc
    unfold alloc_loop2
    by_cases hidle : r.active = 0 ∧ r.persis_state = 0
    · rw [if_pos hidle, availRows_drop]
      split
      · rename_i q qs heq
        have htake : (availRows H []).take k ++ [q] = (availRows H []).take (k+1) := by
          rw [List.take_add, heq]
          rfl
        have hdrop : (availRows H []).drop (k+1) = qs := by
          rw [← List.drop_drop, heq]
          rfl
        rw [htake, newGensOf_cons_sim, simRowsOf_cons_sim]
        rcases ih (k+1) gc with hg | hs
        · exact Or.inl hg
        · refine Or.inr ?_
          rw [hs, hdrop, heq]
          simp
      · rename_i heq
        by_cases hgc : gc > 0
        · rw [if_pos hgc]
          exact ih k gc
        · rw [if_neg hgc, newGensOf_cons_gen_empty _ _ _ _ rfl, simRowsOf_cons_gen]
          refine Or.inr ?_
          have h0 := alloc_loop2_sims H ss gs p rest k (gc+1)
          rw [h0, heq]
          simp
    · rw [if_neg hidle]
      exact ih k gc

/-- The first allocation loop issues neither sim orders nor rowless
generator orders. -/
theorem alloc_loop1_none (H : List Row) (ss : SimSpecsT) (p : PInfo) :
    ∀ (ws : List WRec),
      simRowsOf (alloc_loop1 H ss p ws) = [] ∧
        newGensOf (alloc_loop1 H ss p ws) = [] := by
  intro ws
  induction ws with
  | nil => exact ⟨rfl, rfl⟩
  | cons r rest ih =>
    unfold alloc_loop1
    by_cases hc1 : r.active = 0 ∧ r.persis_state ≠ 0
    · rw [if_pos hc1]
      by_cases hc2 : (genIndsOf H r.worker_id).all (fun i => (rowAt H i).returned) ∧
          genIndsOf H r.worker_id ≠ []
      · rw [if_pos hc2, simRowsOf_cons_gen, newGensOf_cons_gen_rows _ _ _ _ (by simp)]
        exact ih
      · rw [if_neg hc2]
        exact ih
    · rw [if_neg hc1]
      exact ih

/-- C7 (confirmed): in one call of only_persistent_gens, each idle
non-persistent worker is assigned the lowest-index history row with
given false and paused false not already assigned earlier in the same
call, so the sim orders exactly take the available rows oldest first
and their row indices are strictly ascending; a new persistent
generator order is issued at most once, and only when no worker
already holds the persistent generator state and every available row
has been assigned in the call. -/
theorem only_persistent_gens_spec (W : List WRec) (H : List Row) (ss : SimSpecsT)
    (gs : GenSpecsT) (p : PInfo) :
    simRowsOf (only_persistent_gens W H ss gs p).1 =
        (availRows H []).take (idleNonPersisCount W)
    ∧ List.Chain' (· < ·) (simRowsOf (only_persistent_gens W H ss gs p).1)
    ∧ (newGensOf (only_persistent_gens W H ss gs p).1).length ≤ 1
    ∧ (newGensOf (only_persistent_gens W H ss gs p).1 ≠ [] →
        persisGenCount W = 0 ∧
          simRowsOf (only_persistent_gens W H ss gs p).1 = availRows H []) := by
  have hl1 := alloc_loop1_none H ss p W
  have hsim : simRowsOf (only_persistent_gens W H ss gs p).1 =
      simRowsOf (alloc_loop2 H ss gs p W [] (persisGenCount W)) := by
    unfold only_persistent_gens
    rw [simRowsOf_append, hl1.1, List.nil_append]
  have hgen : newGensOf (only_persistent_gens W H ss gs p).1 =
      newGensOf (alloc_loop2 H ss gs p W [] (persisGenCount W)) := by
    unfold only_persistent_gens
    rw [newGensOf_append, hl1.2, List.nil_append]
  have hsims0 : simRowsOf (alloc_loop2 H ss gs p W [] (persisGenCount W)) =
      (availRows H []).take (idleNonPersisCount W) := by
    have h := alloc_loop2_sims H ss gs p W 0 (persisGenCount W)
    rw [List.take_zero, List.drop_zero] at h
    exact h
  refine ⟨by rw [hsim, hsims0], ?_, ?_, fun hne => ?_⟩
  · rw [hsim, hsims0]
    exact List.Pairwise.chain'
      (List.Pairwise.sublist (List.take_sublist _ _) (availRows_pairwise H))
  · rw [hgen]
    exact alloc_loop2_gens_le_one H ss gs p W [] (persisGenCount W)
  · rw [hgen] at hne
    have hgc0 : persisGenCount W = 0 := by
      by_contra hgc
      exact hne (alloc_loop2_gens_pos H ss gs p W [] _ (by omega))
    refine ⟨hgc0, ?_⟩
    rcases alloc_loop2_gens_or H ss gs p W 0 (persisGenCount W) with hg | hs
    · rw [List.take_zero] at hg
      exact absurd hg hne
    · rw [List.take_zero, List.drop_zero] at hs
      rw [hsim, hs]

/-- Four idle workers for the witness scenario. -/
def W7 : List WRec :=
  [{ worker_id := 1 }, { worker_id := 2 }, { worker_id := 3 }, { worker_id := 4 }]

/-- A two-row history, both rows available. -/
def H7 : List Row := [{ sim_id := 0 }, { sim_id := 1 }]

theorem only_persistent_gens_spec_witness :
    simRowsOf (only_persistent_gens W7 H7 {} {} []).1 =
        (availRows H7 []).take (idleNonPersisCount W7)
    ∧ (persisGenCount W7 = 0 ∧
        simRowsOf (only_persistent_gens W7 H7 {} {} []).1 = availRows H7 []) :=
  ⟨(only_persistent_gens_spec W7 H7 {} {} []).1,
   (only_persistent_gens_spec W7 H7 {} {} []).2.2.2 (by decide)⟩

end LibE
